import Mathlib

/-!
Verification of the libvirt domain-XML manipulation layer
(`virttest/libvirt_xml/vm_xml.py`).

Shallow embedding conventions:

* ElementTree elements become the `Elem` tree (tag, ordered attribute list,
  optional text, ordered children).
* Python exceptions become the `PyError` type; a code path that can raise
  returns `Except PyError _`, or a pair of the post-state document with an
  `Option PyError` when the document may have been partially mutated before
  the raise.
* Calls to the external `virsh` tool are recorded in a trace of `ExtCall`
  values; the outcome of each external command is supplied by an `ExtWorld`
  oracle (the document a dump returns, whether undefine/define fail and
  with which diagnostic text).
* The Document Store primitives (`xml_utils` / `accessors`, which are part
  of the repository but not present under `src/`) are modelled from the
  spec where needed; each such definition carries a doc comment saying so.
-/

namespace VmXml

/-- Python exceptions raised by the embedded code paths. -/
inductive PyError where
  | attributeError
  | assertionError
  | indexError
  | valueError
  | notFoundError
  | operationForbiddenError
  | libvirtXMLError (msg : String)
  | cmdError (detail : String)
  deriving Repr, DecidableEq

/-- An ElementTree element: tag name, ordered attribute list, optional text
content, ordered children. -/
inductive Elem where
  | mk (tag : String) (attrib : List (String × String)) (text : Option String)
      (children : List Elem)
  deriving Repr

/-- Tag name of an element. -/
def Elem.tag : Elem → String
  | .mk t _ _ _ => t

/-- Attribute list of an element. -/
def Elem.attrib : Elem → List (String × String)
  | .mk _ a _ _ => a

/-- Text content of an element. -/
def Elem.text : Elem → Option String
  | .mk _ _ x _ => x

/-- Children of an element. -/
def Elem.children : Elem → List Elem
  | .mk _ _ _ cs => cs

/-- Replace the children of an element. -/
def Elem.withChildren (e : Elem) (cs : List Elem) : Elem :=
  .mk e.tag e.attrib e.text cs

/-- Replace the text of an element. -/
def Elem.withText (e : Elem) (x : Option String) : Elem :=
  .mk e.tag e.attrib x e.children

/-- Update an ordered attribute list: replace in place if the key is
present (Python dict update), append otherwise. -/
def setAttrList : List (String × String) → String → String → List (String × String)
  | [], k, v => [(k, v)]
  | (k', v') :: rest, k, v =>
      if k' = k then (k, v) :: rest else (k', v') :: setAttrList rest k v

/-- Element.get(name): attribute lookup, None when absent. -/
def Elem.get (e : Elem) (k : String) : Option String :=
  (e.attrib.find? (fun p => p.1 = k)).map (fun p => p.2)

/-- Element.set(name, value): create or overwrite one attribute. -/
def Elem.set (e : Elem) (k v : String) : Elem :=
  .mk e.tag (setAttrList e.attrib k v) e.text e.children

/-- Element.find(tag): first direct child carrying the tag, None when
absent. -/
def findChild (e : Elem) (t : String) : Option Elem :=
  e.children.find? (fun c => c.tag = t)

/-- Modelled from the spec: `find(doc, path)` of the Document Store
(`xml_utils.XMLTreeFile`, part of the repository but not under `src/`)
locates the first node matching a root-relative sequence of tag names and
returns absent rather than failing when there is no match. -/
def findPath (e : Elem) : List String → Option Elem
  | [] => some e
  | t :: rest =>
      match findChild e t with
      | some c => findPath c rest
      | none => none

/-- Modelled from the spec: `findall` over a root-relative path returns
every matching node in document order. -/
def findallPath (e : Elem) : List String → List Elem
  | [] => [e]
  | t :: rest =>
      (e.children.filter (fun c => c.tag = t)).flatMap (fun c => findallPath c rest)

/-- Python whitespace as used by str.strip. -/
def isPySpace (c : Char) : Bool :=
  c = ' ' || c = '\t' || c = '\n' || c = '\r' || c = '\x0b' || c = '\x0c'

/-- Python str.strip(): drop leading and trailing whitespace. -/
def pyStrip (s : String) : String :=
  String.mk (((s.toList.dropWhile isPySpace).reverse.dropWhile isPySpace).reverse)

/-- A single-quote character, used by the Python error message templates. -/
def sq : String := String.mk [Char.ofNat 39]

/-- The accepted cpu modes of VMXML.check_cpu_mode. -/
def cpu_mode_list : List String := ["custom", "host-model", "host-passthrough"]

/-- VMXML.check_cpu_mode: raise LibvirtXMLError unless mode.strip() is one
of the three accepted cpu modes. -/
def check_cpu_mode (mode : String) : Except PyError Unit :=
  if pyStrip mode ∈ cpu_mode_list then .ok ()
  else .error (.libvirtXMLError ("The cpu mode " ++ sq ++ mode ++ sq ++ " is invalid!"))

instance : Inhabited Elem := ⟨.mk "" [] none []⟩

/-- VMCPUXML.get_feature_list: the feature nodes matched by
findall('/cpu/feature'), in document order. -/
def get_feature_list (doc : Elem) : List Elem :=
  findallPath doc ["cpu", "feature"]

/-- Resolution of a Python sequence index: negative indices count from the
end. -/
def pyResolve (n : Nat) (i : Int) : Int :=
  if i < 0 then i + n else i

/-- Python list indexing: a resolved index out of range raises IndexError. -/
def pyIndex (xs : List α) (i : Int) : Except PyError α :=
  if h : 0 ≤ pyResolve xs.length i ∧ pyResolve xs.length i < (xs.length : Int) then
    .ok (xs.get ⟨(pyResolve xs.length i).toNat, by omega⟩)
  else .error .indexError

/-- Structural equality test for Except results over decidable payloads. -/
instance [DecidableEq ε] [DecidableEq α] : DecidableEq (Except ε α) := fun a b =>
  match a, b with
  | .ok x, .ok y =>
      if h : x = y then .isTrue (by rw [h]) else
        .isFalse (by intro hc; cases hc; exact h rfl)
  | .error x, .error y =>
      if h : x = y then .isTrue (by rw [h]) else
        .isFalse (by intro hc; cases hc; exact h rfl)
  | .ok _, .error _ => .isFalse (by intro hc; cases hc)
  | .error _, .ok _ => .isFalse (by intro hc; cases hc)

/-- VMCPUXML.get_feature_name: bounds-check num against the feature count,
then return the name attribute of feature number num. -/
def get_feature_name (doc : Elem) (num : Int) : Except PyError (Option String) :=
  let count : Int := (get_feature_list doc).length
  if num ≥ count then
    .error (.libvirtXMLError
      ("Get " ++ toString num ++ " from " ++ toString count ++ " features"))
  else
    match pyIndex (get_feature_list doc) num with
    | .error e => .error e
    | .ok f => .ok (f.get "name")

/-- Apply f to the j-th element carrying a given tag within a child list. -/
def mapNthTagged (t : String) (f : Elem → Elem) : List Elem → Nat → List Elem
  | [], _ => []
  | c :: rest, j =>
      if c.tag = t then
        match j with
        | 0 => f c :: rest
        | j' + 1 => c :: mapNthTagged t f rest j'
      else c :: mapNthTagged t f rest j

/-- Apply f to feature number j of the document: feature nodes are numbered
in document order across the cpu children of the root, and the node is
updated in place (mutation through the tree reference held in
feature_list). -/
def mapNthFeatureAux (f : Elem → Elem) : List Elem → Nat → List Elem
  | [], _ => []
  | c :: rest, j =>
      if c.tag = "cpu" then
        let m := (c.children.filter (fun d => d.tag = "feature")).length
        if j < m then c.withChildren (mapNthTagged "feature" f c.children j) :: rest
        else c :: mapNthFeatureAux f rest (j - m)
      else c :: mapNthFeatureAux f rest j

/-- Apply f to feature number j of the document. -/
def mapNthFeature (doc : Elem) (j : Nat) (f : Elem → Elem) : Elem :=
  doc.withChildren (mapNthFeatureAux f doc.children j)

/-- VMCPUXML.set_feature: bounds-check num, then set the name attribute of
feature number num through its tree reference. -/
def set_feature (doc : Elem) (num : Int) (value : String) : Elem × Option PyError :=
  let count : Int := (get_feature_list doc).length
  if num ≥ count then
    (doc, some (.libvirtXMLError
      ("Set " ++ toString num ++ " from " ++ toString count ++ " features")))
  else
    match pyIndex (get_feature_list doc) num with
    | .error e => (doc, some e)
    | .ok _ =>
        let j := (pyResolve (get_feature_list doc).length num).toNat
        (mapNthFeature doc j (fun fe => fe.set "name" value), none)

/-- Remove the j-th element carrying a given tag from a child list. -/
def removeNthTagged (t : String) : List Elem → Nat → List Elem
  | [], _ => []
  | c :: rest, j =>
      if c.tag = t then
        match j with
        | 0 => rest
        | j' + 1 => c :: removeNthTagged t rest j'
      else c :: removeNthTagged t rest j

/-- Replace the first child carrying a tag by a new element. -/
def replaceFirstChild : List Elem → String → Elem → List Elem
  | [], _, _ => []
  | c :: rest, t, nw => if c.tag = t then nw :: rest else c :: replaceFirstChild rest t nw

/-- VMCPUXML.remove_feature: bounds-check num, then remove feature number
num from the cpu node found by find('/cpu'). ElementTree removes list
entries by object identity, so a feature node that does not belong to the
first cpu node raises ValueError, and a missing cpu node raises
AttributeError (both unreachable for single-cpu documents). -/
def remove_feature (doc : Elem) (num : Int) : Elem × Option PyError :=
  let count : Int := (get_feature_list doc).length
  if num ≥ count then
    (doc, some (.libvirtXMLError
      ("Remove " ++ toString num ++ " from " ++ toString count ++ " features")))
  else
    match pyIndex (get_feature_list doc) num with
    | .error e => (doc, some e)
    | .ok _ =>
        let j := (pyResolve (get_feature_list doc).length num).toNat
        match findChild doc "cpu" with
        | none => (doc, some .attributeError)
        | some cpu =>
            if j < (cpu.children.filter (fun d => d.tag = "feature")).length then
              (doc.withChildren (replaceFirstChild doc.children "cpu"
                  (cpu.withChildren (removeNthTagged "feature" cpu.children j))), none)
            else (doc, some .valueError)

/-- A concrete one-feature document used by witnesses. -/
def featDoc1 : Elem :=
  .mk "domain" [("type", "kvm")] none
    [.mk "cpu" [] none [.mk "feature" [("name", "mmx")] none []]]

/-- A concrete two-feature document used by witnesses. -/
def featDoc2 : Elem :=
  .mk "domain" [("type", "kvm")] none
    [.mk "cpu" [] none
      [.mk "feature" [("name", "mmx")] none [],
       .mk "feature" [("name", "sse2")] none []]]

/-- A property descriptor of the Accessor Layer: document location plus
the operations the declaring class forbids. -/
structure PropDescriptor where
  property_name : String
  forbidden : List String
  parent_xpath : List String
  tag_name : String
  deriving Repr, DecidableEq

/-- The model property of VMCPUXML: XMLElementText at /cpu, tag model,
declared with forbidden=['del']. -/
def model_descriptor : PropDescriptor :=
  { property_name := "model", forbidden := ["del"],
    parent_xpath := ["cpu"], tag_name := "model" }

/-- The vendor property of VMCPUXML: XMLElementText at /cpu, tag vendor,
declared with forbidden=['del']. -/
def vendor_descriptor : PropDescriptor :=
  { property_name := "vendor", forbidden := ["del"],
    parent_xpath := ["cpu"], tag_name := "vendor" }

/-- Remove the first child carrying a tag from a child list. -/
def removeFirstChild : List Elem → String → List Elem
  | [], _ => []
  | c :: rest, t => if c.tag = t then rest else c :: removeFirstChild rest t

/-- Rewrite the node located by a root-relative tag path, leaving the
document unchanged when the path does not resolve. -/
def updateAtPath (e : Elem) : List String → (Elem → Elem) → Elem
  | [], f => f e
  | t :: rest, f =>
      match findChild e t with
      | none => e
      | some c => e.withChildren (replaceFirstChild e.children t (updateAtPath c rest f))

/-- Modelled from the spec: the generic delete operation of the accessors
module (part of the repository, not under src/). Deleting fails with
OperationForbiddenError when the descriptor lists 'del' among its
forbidden operations; otherwise it removes the located node entirely,
failing with NotFoundError when the node is absent. -/
def accessorDelete (d : PropDescriptor) (doc : Elem) : Elem × Option PyError :=
  if "del" ∈ d.forbidden then (doc, some .operationForbiddenError)
  else
    match findPath doc d.parent_xpath with
    | none => (doc, some .notFoundError)
    | some parent =>
        match findChild parent d.tag_name with
        | none => (doc, some .notFoundError)
        | some _ =>
            (updateAtPath doc d.parent_xpath
              (fun p => p.withChildren (removeFirstChild p.children d.tag_name)), none)

/-- First index of a child carrying a tag. -/
def firstIdx (cs : List Elem) (t : String) : Option Nat :=
  cs.findIdx? (fun c => c.tag = t)

/-- The serial element VMXML.set_primary_serial creates when the document
has no primary serial: type pty, one target child with port 0. -/
def newSerialElem : Elem :=
  .mk "serial" [("type", "pty")] none [.mk "target" [("port", "0")] none []]

/-- VMXML.set_primary_serial, document part. Locate the primary serial via
get_primary_serial (first serial child of the first devices child, reading
its type and its target's port); on AttributeError create a pty serial
with a port-0 target under devices. Then set the type attribute, set the
target's port attribute, and handle the path argument: with a path,
serial.find('source').set('path', path) raises AttributeError when the
serial has no source child; with path=None, remove the source child,
swallowing the AssertionError that ElementTree's remove raises for the
absent (None) element. The trailing write/set_xml/undefine/define steps
push the document to the external tool without further document mutation
and are modelled separately. -/
def set_primary_serial_doc (doc : Elem) (ty port : String) (path : Option String) :
    Elem × Option PyError :=
  match firstIdx doc.children "devices" with
  | none => (doc, some .attributeError)
  | some di =>
      let devices := doc.children.getD di default
      let acquired : List Elem × Nat :=
        match firstIdx devices.children "serial" with
        | some si =>
            match firstIdx (devices.children.getD si default).children "target" with
            | some _ => (devices.children, si)
            | none => (devices.children ++ [newSerialElem], devices.children.length)
        | none => (devices.children ++ [newSerialElem], devices.children.length)
      let cs := acquired.1
      let si := acquired.2
      let s1 := (cs.getD si default).set "type" ty
      match firstIdx s1.children "target" with
      | none =>
          (doc.withChildren (doc.children.set di (devices.withChildren (cs.set si s1))),
            some .attributeError)
      | some ti =>
          let s2 := s1.withChildren (s1.children.set ti
            ((s1.children.getD ti default).set "port" port))
          match path with
          | some p =>
              match firstIdx s2.children "source" with
              | none =>
                  (doc.withChildren (doc.children.set di
                    (devices.withChildren (cs.set si s2))), some .attributeError)
              | some oi =>
                  let s3 := s2.withChildren (s2.children.set oi
                    ((s2.children.getD oi default).set "path" p))
                  (doc.withChildren (doc.children.set di
                    (devices.withChildren (cs.set si s3))), none)
          | none =>
              match firstIdx s2.children "source" with
              | none =>
                  (doc.withChildren (doc.children.set di
                    (devices.withChildren (cs.set si s2))), none)
              | some oi =>
                  let s3 := s2.withChildren (s2.children.eraseIdx oi)
                  (doc.withChildren (doc.children.set di
                    (devices.withChildren (cs.set si s3))), none)

/-- A domain document with an empty devices element and no serial. -/
def serialDoc0 : Elem :=
  .mk "domain" [("type", "kvm")] none [.mk "devices" [] none []]

/-- The document set_primary_serial produces from serialDoc0 with type pty
and port 0: exactly one serial of type pty, target port 0, no source. -/
def serialDoc1 : Elem :=
  .mk "domain" [("type", "kvm")] none
    [.mk "devices" [] none
      [.mk "serial" [("type", "pty")] none [.mk "target" [("port", "0")] none []]]]

/-- serialDoc1 with a source path attached to the serial. -/
def serialDoc1src : Elem :=
  .mk "domain" [("type", "kvm")] none
    [.mk "devices" [] none
      [.mk "serial" [("type", "pty")] none
        [.mk "target" [("port", "0")] none [],
         .mk "source" [("path", "/tmp/console.log")] none []]]]

/-- Number of children of the first devices child that are serial
elements. -/
def countSerials (doc : Elem) : Nat :=
  match findChild doc "devices" with
  | none => 0
  | some devices => (devices.children.filter (fun c => c.tag = "serial")).length

/-- A VM object as vm_rename sees it: recorded name, uuid field,
liveness. -/
structure VM where
  name : String
  uuid : Option String
  alive : Bool
  deriving Repr, DecidableEq

/-- One call to the external virsh tool. -/
inductive ExtCall where
  | destroy (name : String)
  | dumpxml (name : String)
  | removeDomain (name : String)
  | define (doc : Elem)
  deriving Repr

/-- True exactly for define calls. -/
def ExtCall.isDefine : ExtCall → Bool
  | .define _ => true
  | _ => false

/-- Oracle for the external tool: the document dumpxml returns, and
whether undefine and define fail, with the CmdError diagnostic text. -/
structure ExtWorld where
  dumpDoc : Elem
  undefineErr : Option String
  defineErr : Elem → Option String

/-- Modelled from the spec: get of the vm_name element-text property (the
accessors module is part of the repository but not under src/): the text
of the name child of the root, absent when the node is absent. -/
def getVmName (doc : Elem) : Option String :=
  (findChild doc "name").map (fun n => n.text.getD "")

/-- Modelled from the spec: set of an element-text property: set the text
of the existing node, or create the node under the root when absent. -/
def setTextChild (doc : Elem) (t v : String) : Elem :=
  match findChild doc t with
  | some c => doc.withChildren (replaceFirstChild doc.children t (c.withText (some v)))
  | none => doc.withChildren (doc.children ++ [.mk t [] (some v) []])

/-- The uuid property of VMXMLBase: XMLElementText at the root, tag uuid,
no forbidden operations. -/
def uuid_descriptor : PropDescriptor :=
  { property_name := "uuid", forbidden := [],
    parent_xpath := [], tag_name := "uuid" }

/-- Result of one entity operation: the raised exception if any, the
external calls attempted, and the entity's in-memory document at exit. -/
structure OpOut where
  err : Option PyError
  calls : List ExtCall
  doc : Elem
  deriving Repr

/-- VMXML.undefine: virsh.remove_domain(self.vm_name). The vm_name read
comes from the in-memory document, which the operation leaves intact;
only the undefine command is issued, and a CmdError from the tool
propagates. -/
def undefine (w : ExtWorld) (doc : Elem) : OpOut :=
  match getVmName doc with
  | none => { err := some .notFoundError, calls := [], doc := doc }
  | some nm => { err := w.undefineErr.map .cmdError, calls := [.removeDomain nm], doc := doc }

/-- VMXML.define: virsh.define(self.xml) with the current in-memory
document; a CmdError from the tool propagates. -/
def define (w : ExtWorld) (doc : Elem) : OpOut :=
  { err := (w.defineErr doc).map .cmdError, calls := [.define doc], doc := doc }

/-- Outcome of VMXML.vm_rename: the returned VM or the raised exception,
the external calls attempted, the vm object's fields at exit, and the
working document at exit. -/
structure RenameOut where
  result : Except PyError VM
  calls : List ExtCall
  vmFinal : VM
  docFinal : Elem
  deriving Repr

/-- The document vm_rename pushes back: name set to the new name and the
uuid node either rewritten or removed so the tool regenerates it. -/
def renamedDoc (doc : Elem) (new_name : String) (uuid : Option String) : Elem :=
  match uuid with
  | none => (accessorDelete uuid_descriptor (setTextChild doc "name" new_name)).1
  | some u => setTextChild (setTextChild doc "name" new_name) "uuid" u

/-- The define stage of vm_rename: define the mutated document; on
CmdError define the pre-rename backup and raise LibvirtXMLError with the
define diagnostic, except that a CmdError raised by the backup define
propagates instead (the comment in the source allows it through because
the external state is undefined at that point). -/
def vmRenameDefine (w : ExtWorld) (calls : List ExtCall) (vm1 : VM)
    (doc2 doc0 : Elem) (new_name : String) : RenameOut :=
  match w.defineErr doc2 with
  | some detail =>
      match w.defineErr doc0 with
      | some d2 =>
          { result := .error (.cmdError d2),
            calls := calls ++ [.define doc2, .define doc0],
            vmFinal := vm1, docFinal := doc2 }
      | none =>
          { result := .error (.libvirtXMLError
              ("Error reported while defining VM:\n" ++ detail)),
            calls := calls ++ [.define doc2, .define doc0],
            vmFinal := vm1, docFinal := doc2 }
  | none =>
      { result := .ok { vm1 with name := new_name },
        calls := calls ++ [.define doc2],
        vmFinal := { vm1 with name := new_name },
        docFinal := doc2 }

/-- VMXML.vm_rename: destroy the vm if alive, dump its XML, keep a backup
copy, undefine (a CmdError becomes LibvirtXMLError and aborts), mutate
name and uuid on the document and the vm object, then redefine via
vmRenameDefine. -/
def vm_rename (w : ExtWorld) (vm : VM) (new_name : String) (uuid : Option String) :
    RenameOut :=
  let preCalls := if vm.alive then [ExtCall.destroy vm.name] else []
  let vm0 := if vm.alive then { vm with alive := false } else vm
  let doc0 := w.dumpDoc
  let calls0 := preCalls ++ [ExtCall.dumpxml vm0.name]
  match getVmName doc0 with
  | none =>
      { result := .error .notFoundError, calls := calls0,
        vmFinal := vm0, docFinal := doc0 }
  | some nm =>
      let calls1 := calls0 ++ [ExtCall.removeDomain nm]
      match w.undefineErr with
      | some detail =>
          { result := .error (.libvirtXMLError
              ("Error reported while undefining VM:\n" ++ detail)),
            calls := calls1, vmFinal := vm0, docFinal := doc0 }
      | none =>
          let doc1 := setTextChild doc0 "name" new_name
          match uuid with
          | none =>
              match accessorDelete uuid_descriptor doc1 with
              | (_, some e) =>
                  { result := .error e, calls := calls1,
                    vmFinal := vm0, docFinal := doc1 }
              | (doc2, none) =>
                  vmRenameDefine w calls1 { vm0 with uuid := none } doc2 doc0 new_name
          | some u =>
              let doc2 := setTextChild doc1 "uuid" u
              vmRenameDefine w calls1 { vm0 with uuid := some u } doc2 doc0 new_name

/-- Does the character run appear at the start. -/
def leadsWith : List Char → List Char → Bool
  | [], _ => true
  | _ :: _, [] => false
  | a :: as, b :: bs => a = b && leadsWith as bs

/-- Does the character run appear anywhere. -/
def hasRun (needle : List Char) : List Char → Bool
  | [] => leadsWith needle []
  | c :: rest => leadsWith needle (c :: rest) || hasRun needle rest

/-- Substring test on strings. -/
def strHasRun (needle hay : String) : Bool :=
  hasRun needle.toList hay.toList

/-- The diagnostic text carried by an exception. -/
def PyError.textOf : PyError → String
  | .libvirtXMLError m => m
  | .cmdError d => d
  | _ => ""

/-- The diagnostic text of the exception a rename surfaced, empty on
success. -/
def resultErrText : Except PyError VM → String
  | .error e => e.textOf
  | .ok _ => ""

/-- A dumped domain document for the rename scenarios. -/
def rnDoc0 : Elem :=
  .mk "domain" [("type", "kvm")] none
    [.mk "name" [] (some "vm_old") [],
     .mk "uuid" [] (some "1234-5678") []]

/-- A vm object matching rnDoc0, not running. -/
def rnVm : VM := { name := "vm_old", uuid := some "1234-5678", alive := false }

/-- A world where undefine succeeds but defining the renamed document
fails with detail E-define and defining the pre-rename backup fails with
detail E-backup. -/
def rnWorldBoth : ExtWorld :=
  { dumpDoc := rnDoc0
    undefineErr := none
    defineErr := fun d =>
      if getVmName d = some "vm_old" then some "E-backup" else some "E-define" }

/-- A world where every external command succeeds. -/
def rnWorldOk : ExtWorld :=
  { dumpDoc := rnDoc0, undefineErr := none, defineErr := fun _ => none }

/-- A world where the undefine command fails with detail E-undef. -/
def rnWorldUndefFail : ExtWorld :=
  { dumpDoc := rnDoc0, undefineErr := some "E-undef", defineErr := fun _ => none }

/-- The world backing the set_cpu_mode scenarios: dump succeeds, external
commands succeed. -/
def cpuWorld : ExtWorld :=
  { dumpDoc := rnDoc0, undefineErr := none, defineErr := fun _ => none }

/-- VMXML.set_cpu_mode: load the domain with dumpxml, validate the mode
with check_cpu_mode, set the mode attribute on the cpu node (creating the
node when absent), then push the result with undefine and define. -/
def set_cpu_mode (w : ExtWorld) (vm_name mode : String) : OpOut :=
  let doc0 := w.dumpDoc
  match check_cpu_mode mode with
  | .error e => { err := some e, calls := [.dumpxml vm_name], doc := doc0 }
  | .ok _ =>
      let doc1 :=
        match findChild doc0 "cpu" with
        | some _ => updateAtPath doc0 ["cpu"] (fun c => c.set "mode" mode)
        | none => doc0.withChildren (doc0.children ++ [.mk "cpu" [("mode", mode)] none []])
      match getVmName doc1 with
      | none => { err := some .notFoundError, calls := [.dumpxml vm_name], doc := doc1 }
      | some nm =>
          match w.undefineErr with
          | some d =>
              { err := some (.cmdError d),
                calls := [.dumpxml vm_name, .removeDomain nm], doc := doc1 }
          | none =>
              { err := (w.defineErr doc1).map .cmdError,
                calls := [.dumpxml vm_name, .removeDomain nm, .define doc1], doc := doc1 }

/-- Characters allowed in the tag and attribute names the system's own
mutations write. -/
def isNameChar (c : Char) : Bool :=
  c.isAlphanum || c = '_' || c = '-' || c = '.' || c = ':'

/-- A tag or attribute name the serializer may emit: nonempty, name
characters only. -/
def validName (s : String) : Bool :=
  !s.toList.isEmpty && s.toList.all isNameChar

mutual
/-- Well-formedness of a document the system's own mutations produce: the
tag and every attribute name are valid names (text and attribute values
are arbitrary; they are escaped on output). -/
def wfElem : Elem → Bool
  | .mk t a _ cs =>
      validName t && a.all (fun p => validName p.1) && wfList cs
/-- Well-formedness of a child list. -/
def wfList : List Elem → Bool
  | [] => true
  | c :: rest => wfElem c && wfList rest
end

/-- Escape one character for serialized output. -/
def escChar (c : Char) : List Char :=
  if c = '&' then ['&', 'a', 'm', 'p', ';']
  else if c = '<' then ['&', 'l', 't', ';']
  else if c = '>' then ['&', 'g', 't', ';']
  else if c = '"' then ['&', 'q', 'u', 'o', 't', ';']
  else [c]

/-- Escape text content and attribute values. -/
def escape : List Char → List Char
  | [] => []
  | c :: rest => escChar c ++ escape rest

/-- Serialize an attribute list: a space then name="escaped value" for
each attribute, in order. -/
def serAttrs : List (String × String) → List Char
  | [] => []
  | (k, v) :: rest =>
      ' ' :: k.toList ++ '=' :: '"' :: escape v.toList ++ '"' :: serAttrs rest

mutual
/-- Modelled from the spec: serialize of the Document Store
(`xml_utils`, part of the repository but not under src/). Deterministic
writer: self-closing form for an element with no text and no children,
otherwise the escaped text, the children, and a closing tag. -/
def serElem : Elem → List Char
  | .mk t a tx cs =>
      '<' :: t.toList ++ serAttrs a ++
        (match tx, cs with
         | none, [] => ['/', '>']
         | _, _ =>
             '>' :: escape (tx.getD "").toList ++ serChildren cs ++
               '<' :: '/' :: t.toList ++ ['>'])
/-- Serialize a child list in order. -/
def serChildren : List Elem → List Char
  | [] => []
  | c :: rest => serElem c ++ serChildren rest
end

/-- Serialize a document to text. -/
def serialize (doc : Elem) : String :=
  String.mk (serElem doc)

/-- Decode one entity reference after the ampersand. -/
def unent : List Char → Option (Char × List Char)
  | 'a' :: 'm' :: 'p' :: ';' :: r => some ('&', r)
  | 'l' :: 't' :: ';' :: r => some ('<', r)
  | 'g' :: 't' :: ';' :: r => some ('>', r)
  | 'q' :: 'u' :: 'o' :: 't' :: ';' :: r => some ('"', r)
  | _ => none

/-- Parse an attribute value up to its closing quote, decoding entities.
The fuel argument only bounds recursion depth. -/
def parseVal : Nat → List Char → Option (List Char × List Char)
  | 0, _ => none
  | _ + 1, [] => none
  | fuel + 1, c :: rest =>
      if c = '"' then some ([], rest)
      else if c = '&' then
        match unent rest with
        | some (d, rest1) =>
            match parseVal fuel rest1 with
            | some (v, rest2) => some (d :: v, rest2)
            | none => none
        | none => none
      else
        match parseVal fuel rest with
        | some (v, rest2) => some (c :: v, rest2)
        | none => none

/-- Parse text content up to the next opening angle bracket (not
consumed), decoding entities. -/
def parseText : Nat → List Char → Option (List Char × List Char)
  | 0, _ => none
  | _ + 1, [] => none
  | fuel + 1, c :: rest =>
      if c = '<' then some ([], c :: rest)
      else if c = '&' then
        match unent rest with
        | some (d, rest1) =>
            match parseText fuel rest1 with
            | some (v, rest2) => some (d :: v, rest2)
            | none => none
        | none => none
      else
        match parseText fuel rest with
        | some (v, rest2) => some (c :: v, rest2)
        | none => none

/-- Parse attributes: each begins with one space; the list ends at the
first character that is not a space. -/
def parseAttrs : Nat → List Char → Option (List (String × String) × List Char)
  | 0, _ => none
  | _ + 1, [] => some ([], [])
  | fuel + 1, c :: l =>
      if c = ' ' then
        let nm := l.takeWhile isNameChar
        let rest1 := l.dropWhile isNameChar
        if nm.isEmpty then none
        else
          match rest1 with
          | '=' :: '"' :: rest2 =>
              match parseVal fuel rest2 with
              | some (v, rest3) =>
                  match parseAttrs fuel rest3 with
                  | some (as, rest4) => some ((String.mk nm, String.mk v) :: as, rest4)
                  | none => none
              | none => none
          | _ => none
      else some ([], c :: l)

mutual
/-- Modelled from the spec: parse of the Document Store, element form:
an opening tag with attributes, then either a self-closing slash or text,
children and a matching closing tag. Empty text parses as absent text. -/
def parseElem : Nat → List Char → Option (Elem × List Char)
  | 0, _ => none
  | fuel + 1, l =>
      match l with
      | '<' :: rest =>
          let tag := rest.takeWhile isNameChar
          let rest1 := rest.dropWhile isNameChar
          if tag.isEmpty then none
          else
            match parseAttrs fuel rest1 with
            | none => none
            | some (attrs, rest2) =>
                match rest2 with
                | '/' :: '>' :: rest3 => some (.mk (String.mk tag) attrs none [], rest3)
                | '>' :: rest3 =>
                    match parseText fuel rest3 with
                    | none => none
                    | some (txt, rest4) =>
                        match parseChildren fuel rest4 with
                        | none => none
                        | some (cs, rest5) =>
                            match rest5 with
                            | '<' :: '/' :: rest6 =>
                                let tag2 := rest6.takeWhile isNameChar
                                let rest7 := rest6.dropWhile isNameChar
                                if tag2 = tag then
                                  match rest7 with
                                  | '>' :: rest8 =>
                                      some (.mk (String.mk tag) attrs
                                        (if txt.isEmpty then none
                                          else some (String.mk txt)) cs, rest8)
                                  | _ => none
                                else none
                            | _ => none
                | _ => none
      | _ => none
/-- Parse a child list: elements until the closing-tag marker, which is
left unconsumed. -/
def parseChildren : Nat → List Char → Option (List Elem × List Char)
  | 0, _ => none
  | fuel + 1, l =>
      match l with
      | '<' :: c0 :: rest =>
          if c0 = '/' then some ([], l)
          else
            match parseElem fuel l with
            | none => none
            | some (c, rest1) =>
                match parseChildren fuel rest1 with
                | some (cs, rest2) => some (c :: cs, rest2)
                | none => none
      | _ => none
end

/-- Modelled from the spec: parse of the Document Store: succeeds exactly
on text that is one well-formed element consumed in full. -/
def parse (s : String) : Option Elem :=
  match parseElem (s.length + 1) s.toList with
  | some (e, []) => some e
  | _ => none

mutual
/-- Canonical form of a parsed document: empty text becomes absent text
(the two serialize identically up to the self-closing form and parse back
to absent text). -/
def canonElem : Elem → Elem
  | .mk t a tx cs =>
      .mk t a
        (match tx with
         | some s => if s = "" then none else some s
         | none => none)
        (canonList cs)
/-- Canonical form of a child list. -/
def canonList : List Elem → List Elem
  | [] => []
  | c :: rest => canonElem c :: canonList rest
end

mutual
/-- Structural equality of documents: same tags, same attributes, same
children, and the same text content with absent text identified with
empty text. -/
def structEqElem : Elem → Elem → Bool
  | .mk t a tx cs, .mk t' a' tx' cs' =>
      t = t' && a = a' && tx.getD "" = tx'.getD "" && structEqList cs cs'
/-- Structural equality of child lists. -/
def structEqList : List Elem → List Elem → Bool
  | [], [] => true
  | c :: r, c' :: r' => structEqElem c c' && structEqList r r'
  | _, _ => false
end

/-- Structural equality against an optional parse result; a failed parse
is never structurally equal. -/
def structEqOpt : Option Elem → Elem → Bool
  | some e, d => structEqElem e d
  | none, _ => false

/-- Does the character list begin with a space. -/
def headIsSpace : List Char → Bool
  | ' ' :: _ => true
  | _ => false

/-! ## Theorems -/

/-- C5: deleting a property whose descriptor lists del among its forbidden
operations always fails with OperationForbiddenError and leaves the
document unchanged; the model and vendor properties of VMCPUXML are
declared exactly that way. -/
theorem forbidden_delete_rejected (d : PropDescriptor) (doc : Elem)
    (h : "del" ∈ d.forbidden) :
    accessorDelete d doc = (doc, some .operationForbiddenError) ∧
    model_descriptor.forbidden = ["del"] ∧ vendor_descriptor.forbidden = ["del"] := by
  refine ⟨?_, rfl, rfl⟩
  unfold accessorDelete
  rw [if_pos h]

/-- C5 witness: deleting the model property of a concrete document is
forbidden and leaves it unchanged. -/
theorem forbidden_delete_rejected_witness :
    "del" ∈ model_descriptor.forbidden ∧
    accessorDelete model_descriptor featDoc1 =
      (featDoc1, some .operationForbiddenError) :=
  ⟨by decide, (forbidden_delete_rejected model_descriptor featDoc1 (by decide)).1⟩

/-- C1 counterexample: when the define of the renamed document fails with
detail E-define and the recommit of the pre-rename backup fails with
detail E-backup, the exception surfaced to the caller is the bare CmdError
of the recommit; the define failure's diagnostic E-define appears nowhere
in it, so the two failures are not both surfaced. -/
theorem vm_rename_double_failure_counterexample :
    (vm_rename rnWorldBoth rnVm "vm_new" none).result = .error (.cmdError "E-backup") ∧
    strHasRun "E-define"
      (resultErrText (vm_rename rnWorldBoth rnVm "vm_new" none).result) = false ∧
    strHasRun "E-define" ("Error reported while defining VM:\n" ++ "E-define") = true := by
  refine ⟨by decide, by decide, by decide⟩

/-- C1 amended: if define fails after a successful undefine, vm_rename
does attempt to recommit the saved pre-rename document; if that recommit
also fails, the recommit's CmdError propagates and replaces the pending
LibvirtXMLError, so only the recommit failure is surfaced to the caller. -/
theorem vm_rename_double_failure (w : ExtWorld) (vm : VM) (new_name : String)
    (uuid : Option String) (nm d1 d2 : String)
    (hn : getVmName w.dumpDoc = some nm)
    (hu : w.undefineErr = none)
    (hdel : uuid = none →
      (accessorDelete uuid_descriptor (setTextChild w.dumpDoc "name" new_name)).2 = none)
    (h1 : w.defineErr (renamedDoc w.dumpDoc new_name uuid) = some d1)
    (h2 : w.defineErr w.dumpDoc = some d2) :
    (vm_rename w vm new_name uuid).result = .error (.cmdError d2) ∧
    (vm_rename w vm new_name uuid).calls =
      (if vm.alive then [ExtCall.destroy vm.name] else []) ++
      [.dumpxml vm.name, .removeDomain nm,
       .define (renamedDoc w.dumpDoc new_name uuid), .define w.dumpDoc] := by
  have hvm0 : (if vm.alive then { vm with alive := false } else vm).name = vm.name := by
    cases vm.alive <;> simp
  cases uuid with
  | none =>
      rcases hacc : accessorDelete uuid_descriptor (setTextChild w.dumpDoc "name" new_name)
        with ⟨a, b⟩
      have hb : b = none := by
        have hdel0 := hdel rfl
        rw [hacc] at hdel0
        exact hdel0
      subst hb
      have hren : renamedDoc w.dumpDoc new_name none = a := by
        unfold renamedDoc
        rw [hacc]
      rw [hren] at h1
      simp only [vm_rename, vmRenameDefine, hn, hu, hacc, h1, h2, hren, hvm0]
      cases vm.alive <;> simp
  | some u =>
      have hren : renamedDoc w.dumpDoc new_name (some u) =
          setTextChild (setTextChild w.dumpDoc "name" new_name) "uuid" u := rfl
      rw [hren] at h1
      simp only [vm_rename, vmRenameDefine, hn, hu, h1, h2, hren, hvm0]
      cases vm.alive <;> simp

/-- C1 amended witness: the concrete double-failure world surfaces the
recommit failure. -/
theorem vm_rename_double_failure_witness :
    getVmName rnWorldBoth.dumpDoc = some "vm_old" ∧
    (vm_rename rnWorldBoth rnVm "vm_new" none).result = .error (.cmdError "E-backup") :=
  ⟨by decide,
    (vm_rename_double_failure rnWorldBoth rnVm "vm_new" none "vm_old"
      "E-define" "E-backup" (by decide) rfl (fun _ => by decide)
      (by decide) (by decide)).1⟩

/-- C6: when the undefine step of vm_rename fails with a CmdError, the
operation aborts surfacing LibvirtXMLError with the undefine diagnostic;
the document's name and uuid are not mutated, the vm object's name and
uuid are not mutated, and no define call is issued. -/
theorem vm_rename_undefine_failure (w : ExtWorld) (vm : VM) (new_name : String)
    (uuid : Option String) (nm detail : String)
    (hn : getVmName w.dumpDoc = some nm)
    (hu : w.undefineErr = some detail) :
    (vm_rename w vm new_name uuid).result =
      .error (.libvirtXMLError ("Error reported while undefining VM:\n" ++ detail)) ∧
    (vm_rename w vm new_name uuid).docFinal = w.dumpDoc ∧
    (vm_rename w vm new_name uuid).vmFinal.name = vm.name ∧
    (vm_rename w vm new_name uuid).vmFinal.uuid = vm.uuid ∧
    (vm_rename w vm new_name uuid).calls.all (fun c => !c.isDefine) = true := by
  simp only [vm_rename, hn, hu]
  cases vm.alive <;> simp [ExtCall.isDefine]

/-- C6 witness: a concrete world whose undefine fails. -/
theorem vm_rename_undefine_failure_witness :
    getVmName rnWorldUndefFail.dumpDoc = some "vm_old" ∧
    rnWorldUndefFail.undefineErr = some "E-undef" ∧
    (vm_rename rnWorldUndefFail rnVm "vm_new" none).result =
      .error (.libvirtXMLError ("Error reported while undefining VM:\n" ++ "E-undef")) :=
  ⟨by decide, rfl,
    (vm_rename_undefine_failure rnWorldUndefFail rnVm "vm_new" none "vm_old"
      "E-undef" (by decide) rfl).1⟩

/-- C7: undefine issues exactly the external undefine command for the name
read from the retained document, leaves the in-memory document unchanged,
and a subsequent define pushes exactly that retained document. -/
theorem undefine_keeps_document (w : ExtWorld) (doc : Elem) (nm : String)
    (hn : getVmName doc = some nm) :
    (undefine w doc).calls = [.removeDomain nm] ∧
    (undefine w doc).doc = doc ∧
    (define w (undefine w doc).doc).calls = [.define doc] := by
  simp [undefine, define, hn]

/-- C7 witness: undefining the concrete rnDoc0 document. -/
theorem undefine_keeps_document_witness :
    getVmName rnDoc0 = some "vm_old" ∧
    (undefine rnWorldOk rnDoc0).calls = [.removeDomain "vm_old"] ∧
    (undefine rnWorldOk rnDoc0).doc = rnDoc0 :=
  ⟨by decide,
    (undefine_keeps_document rnWorldOk rnDoc0 "vm_old" (by decide)).1,
    (undefine_keeps_document rnWorldOk rnDoc0 "vm_old" (by decide)).2.1⟩

/-- C9 counterexample: with the invalid mode Custom, set_cpu_mode does
fail with the validation error and mutates nothing, but its call trace
already contains the dumpxml call to the external management tool, so the
failure does not occur before any external call is made. -/
theorem set_cpu_mode_external_call_counterexample :
    (set_cpu_mode cpuWorld "dom1" "Custom").err =
      some (.libvirtXMLError ("The cpu mode " ++ sq ++ "Custom" ++ sq ++ " is invalid!")) ∧
    (set_cpu_mode cpuWorld "dom1" "Custom").calls = [.dumpxml "dom1"] ∧
    (set_cpu_mode cpuWorld "dom1" "Custom").calls.length = 1 := by
  refine ⟨by decide, rfl, rfl⟩

/-- C9 amended: for every invalid mode, set_cpu_mode fails with the
validation error from check_cpu_mode before any document mutation and
before any state-changing call (undefine/define) to the external tool;
only the initial read-only dumpxml load precedes the validation. -/
theorem set_cpu_mode_validation_precedes (w : ExtWorld) (vm_name mode : String)
    (e : PyError) (h : check_cpu_mode mode = .error e) :
    (set_cpu_mode w vm_name mode).err = some e ∧
    (set_cpu_mode w vm_name mode).doc = w.dumpDoc ∧
    (set_cpu_mode w vm_name mode).calls = [.dumpxml vm_name] := by
  simp [set_cpu_mode, h]

/-- C9 amended witness: the invalid mode Custom fails fast. -/
theorem set_cpu_mode_validation_precedes_witness :
    check_cpu_mode "Custom" =
      .error (.libvirtXMLError ("The cpu mode " ++ sq ++ "Custom" ++ sq ++ " is invalid!")) ∧
    (set_cpu_mode cpuWorld "dom1" "Custom").doc = cpuWorld.dumpDoc :=
  ⟨by decide,
    (set_cpu_mode_validation_precedes cpuWorld "dom1" "Custom"
      (.libvirtXMLError ("The cpu mode " ++ sq ++ "Custom" ++ sq ++ " is invalid!"))
      (by decide)).2.1⟩

/-- C2 (code bug): from a document with no serial device,
set_primary_serial with type pty and port 0 produces exactly one serial of
type pty with target port 0 and no source, and with path=None it removes
an existing source while preserving type and port; but the claimed second
call with a non-None path does not add a source path attribute: it raises
AttributeError, because serial.find('source') is None for the serial the
first call created. -/
theorem set_primary_serial_path_bug :
    set_primary_serial_doc serialDoc0 "pty" "0" none = (serialDoc1, none) ∧
    countSerials serialDoc1 = 1 ∧
    set_primary_serial_doc serialDoc1 "pty" "0" (some "/tmp/console.log") =
      (serialDoc1, some .attributeError) ∧
    set_primary_serial_doc serialDoc1src "pty" "0" none = (serialDoc1, none) :=
  ⟨rfl, rfl, rfl, rfl⟩

/-- C3: check_cpu_mode accepts exactly the three strings "custom",
"host-model", "host-passthrough" after stripping surrounding whitespace
from the input, and raises LibvirtXMLError for every other input string. -/
theorem check_cpu_mode_exact (mode : String) :
    (check_cpu_mode mode = .ok () ↔
      (pyStrip mode = "custom" ∨ pyStrip mode = "host-model" ∨
        pyStrip mode = "host-passthrough")) ∧
    (check_cpu_mode mode = .ok () ∨
      check_cpu_mode mode =
        .error (.libvirtXMLError
          ("The cpu mode " ++ sq ++ mode ++ sq ++ " is invalid!"))) := by
  unfold check_cpu_mode
  by_cases h : pyStrip mode ∈ cpu_mode_list
  · simp only [if_pos h, cpu_mode_list] at *
    simp_all [List.mem_cons]
  · simp only [if_neg h, cpu_mode_list] at *
    simp_all [List.mem_cons]

/-- C4: whenever num is at least the number of feature nodes,
get_feature_name, remove_feature and set_feature all raise LibvirtXMLError
carrying the requested index and the actual count, and the document is
left unchanged. -/
theorem feature_ops_index_error (doc : Elem) (num : Int) (value : String)
    (h : ((get_feature_list doc).length : Int) ≤ num) :
    get_feature_name doc num = .error (.libvirtXMLError
      ("Get " ++ toString num ++ " from " ++
        toString ((get_feature_list doc).length : Int) ++ " features")) ∧
    remove_feature doc num = (doc, some (.libvirtXMLError
      ("Remove " ++ toString num ++ " from " ++
        toString ((get_feature_list doc).length : Int) ++ " features"))) ∧
    set_feature doc num value = (doc, some (.libvirtXMLError
      ("Set " ++ toString num ++ " from " ++
        toString ((get_feature_list doc).length : Int) ++ " features"))) := by
  refine ⟨?_, ?_, ?_⟩ <;>
    simp [get_feature_name, remove_feature, set_feature, ge_iff_le, h]

/-- Python indexing with a negative in-range index resolves to the
position length + i. -/
theorem pyIndex_neg_ok (xs : List α) (i : Int) (h1 : -(xs.length : Int) ≤ i)
    (h2 : i < 0) :
    pyIndex xs i = .ok (xs.get ⟨(i + xs.length).toNat, by omega⟩) := by
  have hres : pyResolve xs.length i = i + xs.length := by
    unfold pyResolve; rw [if_pos h2]
  unfold pyIndex
  simp only [hres]
  rw [dif_pos ⟨by omega, by omega⟩]

/-- C10: a negative index i with -count ≤ i < 0 passes the bounds check
(which only rejects i ≥ count) in all three feature operations, and
addresses the feature at position count + i: get_feature_name returns that
feature's name attribute, set_feature updates that feature, and
remove_feature behaves exactly as it does at the non-negative index
count + i and never raises the LibvirtXMLError index error. -/
theorem feature_ops_negative_index (doc : Elem) (num : Int) (value : String)
    (h1 : -((get_feature_list doc).length : Int) ≤ num) (h2 : num < 0) :
    get_feature_name doc num =
      .ok (((get_feature_list doc).getD
        (num + (get_feature_list doc).length).toNat default).get "name") ∧
    set_feature doc num value =
      (mapNthFeature doc (num + (get_feature_list doc).length).toNat
        (fun fe => fe.set "name" value), none) ∧
    remove_feature doc num =
      remove_feature doc (num + (get_feature_list doc).length) ∧
    (∀ m, (remove_feature doc num).2 ≠ some (.libvirtXMLError m)) := by
  have hlt : ¬ ((get_feature_list doc).length : Int) ≤ num := by omega
  have hkey := pyIndex_neg_ok (get_feature_list doc) num h1 h2
  have hres : pyResolve (get_feature_list doc).length num =
      num + (get_feature_list doc).length := by
    unfold pyResolve; rw [if_pos h2]
  have hget : (get_feature_list doc).getD
      (num + (get_feature_list doc).length).toNat default =
      (get_feature_list doc).get ⟨(num + (get_feature_list doc).length).toNat,
        by omega⟩ :=
    List.getD_eq_get _ _ (by omega)
  refine ⟨?_, ?_, ?_, ?_⟩
  · unfold get_feature_name
    rw [if_neg (by exact_mod_cast hlt), hkey, hget]
  · unfold set_feature
    rw [if_neg (by exact_mod_cast hlt), hkey, hres]
  · unfold remove_feature
    rw [if_neg (by exact_mod_cast hlt), hkey, hres,
      if_neg (by omega : ¬ num + ((get_feature_list doc).length : Int) ≥
        ((get_feature_list doc).length : Int))]
    have hres2 : pyResolve (get_feature_list doc).length
        (num + (get_feature_list doc).length) =
        num + (get_feature_list doc).length := by
      unfold pyResolve
      rw [if_neg (by omega)]
    unfold pyIndex
    simp only [hres2]
    rw [dif_pos ⟨by omega, by omega⟩]
  · intro m
    unfold remove_feature
    rw [if_neg (by exact_mod_cast hlt), hkey, hres]
    cases hc : findChild doc "cpu" <;> simp [hc]
    split <;> simp

/-- C10 witness: on a two-feature document, index -1 addresses feature 1. -/
theorem feature_ops_negative_index_witness :
    -((get_feature_list featDoc2).length : Int) ≤ -1 ∧ (-1 : Int) < 0 ∧
    get_feature_name featDoc2 (-1) = .ok (some "sse2") :=
  ⟨by decide, by decide, by
    have h := (feature_ops_negative_index featDoc2 (-1) "x"
      (by decide) (by decide)).1
    rw [h]; decide⟩

/-- C4 witness: a one-feature document rejects index 5 in all three
operations. -/
theorem feature_ops_index_error_witness :
    ((get_feature_list featDoc1).length : Int) ≤ 5 ∧
    get_feature_name featDoc1 5 = .error (.libvirtXMLError
      ("Get " ++ toString (5 : Int) ++ " from " ++
        toString ((get_feature_list featDoc1).length : Int) ++ " features")) :=
  ⟨by decide, (feature_ops_index_error featDoc1 5 "sse" (by decide)).1⟩

/-- Escaping a character always produces at least one character. -/
theorem escChar_length_pos (c : Char) : 1 ≤ (escChar c).length := by
  unfold escChar
  split_ifs <;> simp

/-- takeWhile and dropWhile on a run of satisfying characters followed by
a failing character. -/
theorem takeWhile_run (p : Char → Bool) (xs : List Char) (y : Char) (ys : List Char)
    (hx : ∀ a ∈ xs, p a = true) (hy : p y = false) :
    (xs ++ y :: ys).takeWhile p = xs ∧ (xs ++ y :: ys).dropWhile p = y :: ys := by
  induction xs with
  | nil => simp [List.takeWhile, List.dropWhile, hy]
  | cons a as ih =>
      have ha : p a = true := hx a (by simp)
      have hx' : ∀ b ∈ as, p b = true := fun b hb => hx b (by simp [hb])
      have hih := ih hx'
      simp [List.takeWhile, List.dropWhile, ha, hih.1, hih.2]

/-- A valid name is a nonempty list of name characters. -/
theorem validName_parts (s : String) (h : validName s = true) :
    s.toList ≠ [] ∧ ∀ a ∈ s.toList, isNameChar a = true := by
  unfold validName at h
  simp only [Bool.and_eq_true, Bool.not_eq_true', List.isEmpty_eq_false,
    List.all_eq_true] at h
  exact ⟨h.1, h.2⟩

/-- Decoding an escaped value up to the closing quote recovers the
original characters. -/
theorem parseVal_escape (v : List Char) : ∀ rest fuel, (escape v).length < fuel →
    parseVal fuel (escape v ++ '"' :: rest) = some (v, rest) := by
  induction v with
  | nil =>
      intro rest fuel hf
      obtain ⟨f, rfl⟩ : ∃ f, fuel = f + 1 := ⟨fuel - 1, by omega⟩
      simp [escape, parseVal]
  | cons c v' ih =>
      intro rest fuel hf
      obtain ⟨f, rfl⟩ : ∃ f, fuel = f + 1 := ⟨fuel - 1, by omega⟩
      have hlen : (escape (c :: v')).length =
          (escChar c).length + (escape v').length := by
        simp [escape]
      have hc := escChar_length_pos c
      have hrec : parseVal f (escape v' ++ '"' :: rest) = some (v', rest) :=
        ih rest f (by omega)
      by_cases h1 : c = '&'
      · subst h1
        simp [escape, escChar, parseVal, unent, hrec]
      by_cases h2 : c = '<'
      · subst h2
        simp [escape, escChar, parseVal, unent, hrec]
      by_cases h3 : c = '>'
      · subst h3
        simp [escape, escChar, parseVal, unent, hrec]
      by_cases h4 : c = '"'
      · subst h4
        simp [escape, escChar, parseVal, unent, hrec]
      · simp [escape, escChar, h1, h2, h3, h4, parseVal, hrec]

/-- Decoding escaped text up to the next opening bracket recovers the
original characters, leaving the bracket unconsumed. -/
theorem parseText_escape (v : List Char) : ∀ rest fuel, (escape v).length < fuel →
    parseText fuel (escape v ++ '<' :: rest) = some (v, '<' :: rest) := by
  induction v with
  | nil =>
      intro rest fuel hf
      obtain ⟨f, rfl⟩ : ∃ f, fuel = f + 1 := ⟨fuel - 1, by omega⟩
      simp [escape, parseText]
  | cons c v' ih =>
      intro rest fuel hf
      obtain ⟨f, rfl⟩ : ∃ f, fuel = f + 1 := ⟨fuel - 1, by omega⟩
      have hlen : (escape (c :: v')).length =
          (escChar c).length + (escape v').length := by
        simp [escape]
      have hc := escChar_length_pos c
      have hrec : parseText f (escape v' ++ '<' :: rest) = some (v', '<' :: rest) :=
        ih rest f (by omega)
      by_cases h1 : c = '&'
      · subst h1
        simp [escape, escChar, parseText, unent, hrec]
      by_cases h2 : c = '<'
      · subst h2
        simp [escape, escChar, parseText, unent, hrec]
      by_cases h3 : c = '>'
      · subst h3
        simp [escape, escChar, parseText, unent, hrec]
      by_cases h4 : c = '"'
      · subst h4
        simp [escape, escChar, parseText, unent, hrec]
      · simp [escape, escChar, h1, h2, h3, h4, parseText, hrec]

/-- A serialized attribute list followed by a non-name character starts
with a non-name character. -/
theorem serAttrs_head_nonname (a : List (String × String)) (y : Char)
    (ys : List Char) (hy : isNameChar y = false) :
    ∃ y' ys', serAttrs a ++ y :: ys = y' :: ys' ∧ isNameChar y' = false := by
  cases a with
  | nil => exact ⟨y, ys, by simp [serAttrs], hy⟩
  | cons kv as =>
      obtain ⟨k, v⟩ := kv
      exact ⟨' ', k.toList ++ '=' :: '"' :: escape v.toList ++ '"' :: serAttrs as ++ y :: ys,
        by simp [serAttrs], by decide⟩

/-- Parsing a serialized attribute list recovers it, stopping at the first
non-space character. -/
theorem parseAttrs_ser (a : List (String × String))
    (hwf : ∀ p ∈ a, validName p.1 = true) :
    ∀ z fuel, headIsSpace z = false → (serAttrs a).length < fuel →
      parseAttrs fuel (serAttrs a ++ z) = some (a, z) := by
  induction a with
  | nil =>
      intro z fuel hz hf
      obtain ⟨f, rfl⟩ : ∃ f, fuel = f + 1 := ⟨fuel - 1, by omega⟩
      cases z with
      | nil => simp [serAttrs, parseAttrs]
      | cons y ys =>
          have hy : ¬ y = ' ' := by
            intro h
            subst h
            simp [headIsSpace] at hz
          simp [serAttrs, parseAttrs, hy]
  | cons kv as ih =>
      obtain ⟨k, v⟩ := kv
      intro z fuel hz hf
      obtain ⟨f, rfl⟩ : ∃ f, fuel = f + 1 := ⟨fuel - 1, by omega⟩
      have hk := validName_parts k (hwf (k, v) (by simp))
      obtain ⟨c0, ts, hkl⟩ : ∃ c0 ts, k.toList = c0 :: ts := by
        cases hkk : k.toList with
        | nil => exact absurd hkk hk.1
        | cons c0 ts => exact ⟨c0, ts, rfl⟩
      have hrun := takeWhile_run isNameChar k.toList '='
        ('"' :: (escape v.toList ++ '"' :: (serAttrs as ++ z))) hk.2 (by decide)
      have hlen : (serAttrs ((k, v) :: as)).length =
          4 + k.toList.length + (escape v.toList).length + (serAttrs as).length := by
        simp [serAttrs]
        omega
      have hval : parseVal f (escape v.toList ++ '"' :: (serAttrs as ++ z)) =
          some (v.toList, serAttrs as ++ z) :=
        parseVal_escape v.toList (serAttrs as ++ z) f (by omega)
      have hrec : parseAttrs f (serAttrs as ++ z) = some (as, z) :=
        ih (fun p hp => hwf p (by simp [hp])) z f hz (by omega)
      have hmkk : String.mk k.toList = k := rfl
      have hmkv : String.mk v.toList = v := rfl
      have hrun1 := hrun.1
      have hrun2 := hrun.2
      have hstream : serAttrs ((k, v) :: as) ++ z =
          ' ' :: (k.toList ++ '=' :: '"' :: (escape v.toList ++ '"' :: (serAttrs as ++ z))) := by
        simp [serAttrs]
      rw [hstream]
      have hemp : (List.takeWhile isNameChar
          (k.toList ++ '=' :: '"' :: (escape v.toList ++ '"' :: (serAttrs as ++ z)))).isEmpty
          = false := by
        rw [hrun1, hkl]
        rfl
      simp only [parseAttrs, if_pos rfl, hrun2, hemp, Bool.false_eq_true, if_false,
        hval, hrec, hrun1, hmkk, hmkv]
      simp [show k.data = c0 :: ts from hkl]

/-- A serialized well-formed element starts with an opening bracket and a
name character. -/
theorem serElem_head (e : Elem) (h : wfElem e = true) :
    ∃ c0 q, serElem e = '<' :: c0 :: q ∧ isNameChar c0 = true := by
  obtain ⟨t, a, tx, cs⟩ := e
  have hv : validName t = true := by
    simp only [wfElem, Bool.and_eq_true] at h
    exact h.1.1
  obtain ⟨hne, hall⟩ := validName_parts t hv
  obtain ⟨c0, ts, hkl⟩ : ∃ c0 ts, t.toList = c0 :: ts := by
    cases hkk : t.toList with
    | nil => exact absurd hkk hne
    | cons c0 ts => exact ⟨c0, ts, rfl⟩
  have hmem : isNameChar c0 = true :=
    hall c0 (by rw [hkl]; exact List.mem_cons_self c0 ts)
  rcases tx with _ | s <;> rcases cs with _ | ⟨c, cs'⟩
  · exact ⟨c0, ts ++ serAttrs a ++ ['/', '>'], by
      rw [show serElem (Elem.mk t a none []) =
        '<' :: t.toList ++ serAttrs a ++ ['/', '>'] from rfl, hkl]
      simp [List.append_assoc],
      hmem⟩
  · exact ⟨c0, ts ++ serAttrs a ++ ('>' :: escape ([] : List Char) ++
      serChildren (c :: cs') ++ '<' :: '/' :: t.toList ++ ['>']), by
      rw [show serElem (Elem.mk t a none (c :: cs')) =
        '<' :: t.toList ++ serAttrs a ++ ('>' :: escape ([] : List Char) ++
          serChildren (c :: cs') ++ '<' :: '/' :: t.toList ++ ['>']) from rfl, hkl]
      simp [List.append_assoc],
      hmem⟩
  · exact ⟨c0, ts ++ serAttrs a ++ ('>' :: escape s.toList ++
      serChildren ([] : List Elem) ++ '<' :: '/' :: t.toList ++ ['>']), by
      rw [show serElem (Elem.mk t a (some s) []) =
        '<' :: t.toList ++ serAttrs a ++ ('>' :: escape s.toList ++
          serChildren ([] : List Elem) ++ '<' :: '/' :: t.toList ++ ['>']) from rfl, hkl]
      simp [List.append_assoc],
      hmem⟩
  · exact ⟨c0, ts ++ serAttrs a ++ ('>' :: escape s.toList ++
      serChildren (c :: cs') ++ '<' :: '/' :: t.toList ++ ['>']), by
      rw [show serElem (Elem.mk t a (some s) (c :: cs')) =
        '<' :: t.toList ++ serAttrs a ++ ('>' :: escape s.toList ++
          serChildren (c :: cs') ++ '<' :: '/' :: t.toList ++ ['>']) from rfl, hkl]
      simp [List.append_assoc],
      hmem⟩

/-- A serialized well-formed element has at least four characters. -/
theorem serElem_length_ge (e : Elem) (h : wfElem e = true) :
    4 ≤ (serElem e).length := by
  obtain ⟨t, a, tx, cs⟩ := e
  have hv : validName t = true := by
    simp only [wfElem, Bool.and_eq_true] at h
    exact h.1.1
  obtain ⟨hne, hall⟩ := validName_parts t hv
  obtain ⟨c0, ts, hkl⟩ : ∃ c0 ts, t.toList = c0 :: ts := by
    cases hkk : t.toList with
    | nil => exact absurd hkk hne
    | cons c0 ts => exact ⟨c0, ts, rfl⟩
  have hlen1 : 1 ≤ t.length := by
    rw [show t.length = t.toList.length from rfl, hkl]
    simp
  rcases tx with _ | s <;> rcases cs with _ | ⟨c, cs'⟩ <;>
      simp [serElem, hkl] <;> omega

/-- One unfolding step of parseChildren on a non-closing element start. -/
theorem parseChildren_cons_step (f : Nat) (c0 : Char) (X : List Char)
    (h : ¬ c0 = '/') :
    parseChildren (f + 1) ('<' :: c0 :: X) =
      match parseElem f ('<' :: c0 :: X) with
      | none => none
      | some (c, rest1) =>
          match parseChildren f rest1 with
          | some (cs, rest2) => some (c :: cs, rest2)
          | none => none := by
  simp [parseChildren, h]

/-- Parsing a serialized child list recovers its canonical form, stopping
at the closing-tag marker. -/
theorem parseChildren_ser (cs : List Elem)
    (IH : ∀ c ∈ cs, ∀ rest fuel, (serElem c).length < fuel →
      parseElem fuel (serElem c ++ rest) = some (canonElem c, rest))
    (hwf : wfList cs = true) :
    ∀ r0 fuel, (serChildren cs).length + 1 < fuel →
      parseChildren fuel (serChildren cs ++ '<' :: '/' :: r0) =
        some (canonList cs, '<' :: '/' :: r0) := by
  induction cs with
  | nil =>
      intro r0 fuel hf
      obtain ⟨f, rfl⟩ : ∃ f, fuel = f + 1 := ⟨fuel - 1, by omega⟩
      simp [serChildren, parseChildren, canonList]
  | cons c cs' ih =>
      intro r0 fuel hf
      obtain ⟨f, rfl⟩ : ∃ f, fuel = f + 1 := ⟨fuel - 1, by omega⟩
      have hwfc : wfElem c = true := by
        simp only [wfList, Bool.and_eq_true] at hwf
        exact hwf.1
      have hwfcs : wfList cs' = true := by
        simp only [wfList, Bool.and_eq_true] at hwf
        exact hwf.2
      obtain ⟨c0, q, hser, hc0⟩ := serElem_head c hwfc
      have hc0ne : ¬ c0 = '/' := by
        intro hcontr
        rw [hcontr] at hc0
        exact absurd hc0 (by decide)
      have hlc := serElem_length_ge c hwfc
      have hlen : (serChildren (c :: cs')).length =
          (serElem c).length + (serChildren cs').length := by
        simp [serChildren]
      have hstream : serChildren (c :: cs') ++ '<' :: '/' :: r0 =
          '<' :: c0 :: (q ++ (serChildren cs' ++ '<' :: '/' :: r0)) := by
        rw [show serChildren (c :: cs') = serElem c ++ serChildren cs' from rfl, hser]
        simp [List.append_assoc]
      have helem : parseElem f (serElem c ++ (serChildren cs' ++ '<' :: '/' :: r0)) =
          some (canonElem c, serChildren cs' ++ '<' :: '/' :: r0) :=
        IH c (by simp) _ f (by omega)
      have hback : '<' :: c0 :: (q ++ (serChildren cs' ++ '<' :: '/' :: r0)) =
          serElem c ++ (serChildren cs' ++ '<' :: '/' :: r0) := by
        rw [hser]
        simp
      have hrec : parseChildren f (serChildren cs' ++ '<' :: '/' :: r0) =
          some (canonList cs', '<' :: '/' :: r0) :=
        ih (fun d hd => IH d (by simp [hd])) hwfcs r0 f (by omega)
      rw [hstream, parseChildren_cons_step f c0 _ hc0ne, hback, helem]
      simp [hrec, canonList]

/-- Parsing the long serialized form of an element (text, children,
closing tag) recovers its canonical form. -/
theorem parseElem_ser_long (t : String) (a : List (String × String))
    (tx : Option String) (cs : List Elem)
    (hlong : serElem (Elem.mk t a tx cs) =
      '<' :: t.toList ++ serAttrs a ++ '>' :: escape (tx.getD "").toList ++
        serChildren cs ++ '<' :: '/' :: t.toList ++ ['>'])
    (hvt : validName t = true)
    (hva : ∀ p ∈ a, validName p.1 = true)
    (hwcs : wfList cs = true)
    (IH : ∀ c ∈ cs, ∀ rest fuel, (serElem c).length < fuel →
      parseElem fuel (serElem c ++ rest) = some (canonElem c, rest)) :
    ∀ rest fuel, (serElem (Elem.mk t a tx cs)).length < fuel →
      parseElem fuel (serElem (Elem.mk t a tx cs) ++ rest) =
        some (canonElem (Elem.mk t a tx cs), rest) := by
  intro rest fuel hf
  obtain ⟨f, rfl⟩ : ∃ f, fuel = f + 1 := ⟨fuel - 1, by omega⟩
  obtain ⟨hne, hall⟩ := validName_parts t hvt
  obtain ⟨c0, ts, hkl⟩ : ∃ c0 ts, t.toList = c0 :: ts := by
    cases hkk : t.toList with
    | nil => exact absurd hkk hne
    | cons c0 ts => exact ⟨c0, ts, rfl⟩
  have hfl : (serElem (Elem.mk t a tx cs)).length =
      t.toList.length + (serAttrs a).length + (escape (tx.getD "").toList).length +
        (serChildren cs).length + t.toList.length + 5 := by
    rw [hlong]
    simp only [List.length_cons, List.length_append, List.length_nil]
    omega
  have hstream : serElem (Elem.mk t a tx cs) ++ rest =
      '<' :: (t.toList ++ (serAttrs a ++ ('>' :: (escape (tx.getD "").toList ++
        (serChildren cs ++ ('<' :: '/' :: (t.toList ++ '>' :: rest))))))) := by
    rw [hlong]
    simp [List.append_assoc]
  obtain ⟨y', ys', hZ, hy'⟩ := serAttrs_head_nonname a '>'
    (escape (tx.getD "").toList ++
      (serChildren cs ++ ('<' :: '/' :: (t.toList ++ '>' :: rest)))) (by decide)
  have hrun := takeWhile_run isNameChar t.toList y' ys' hall hy'
  have htake : (t.toList ++ (serAttrs a ++ ('>' :: (escape (tx.getD "").toList ++
      (serChildren cs ++ ('<' :: '/' :: (t.toList ++ '>' :: rest))))))).takeWhile
        isNameChar = t.toList := by
    rw [hZ]
    exact hrun.1
  have hdrop : (t.toList ++ (serAttrs a ++ ('>' :: (escape (tx.getD "").toList ++
      (serChildren cs ++ ('<' :: '/' :: (t.toList ++ '>' :: rest))))))).dropWhile
        isNameChar = serAttrs a ++ ('>' :: (escape (tx.getD "").toList ++
      (serChildren cs ++ ('<' :: '/' :: (t.toList ++ '>' :: rest))))) := by
    rw [hZ]
    rw [hrun.2, ← hZ]
  have hempty : t.toList.isEmpty = false := by
    rw [hkl]
    rfl
  have hattrs : parseAttrs f (serAttrs a ++ ('>' :: (escape (tx.getD "").toList ++
      (serChildren cs ++ ('<' :: '/' :: (t.toList ++ '>' :: rest)))))) =
      some (a, '>' :: (escape (tx.getD "").toList ++
        (serChildren cs ++ ('<' :: '/' :: (t.toList ++ '>' :: rest))))) :=
    parseAttrs_ser a hva _ f rfl (by omega)
  obtain ⟨X, hX⟩ : ∃ X, serChildren cs ++ ('<' :: '/' :: (t.toList ++ '>' :: rest)) =
      '<' :: X := by
    cases cs with
    | nil => exact ⟨'/' :: (t.toList ++ '>' :: rest), by simp [serChildren]⟩
    | cons c cs' =>
        have hwfc : wfElem c = true := by
          simp only [wfList, Bool.and_eq_true] at hwcs
          exact hwcs.1
        obtain ⟨d0, q, hser, _⟩ := serElem_head c hwfc
        exact ⟨d0 :: (q ++ (serChildren cs' ++ ('<' :: '/' :: (t.toList ++ '>' :: rest)))), by
          rw [show serChildren (c :: cs') = serElem c ++ serChildren cs' from rfl, hser]
          simp [List.append_assoc]⟩
  have hptext : parseText f (escape (tx.getD "").toList ++
      (serChildren cs ++ ('<' :: '/' :: (t.toList ++ '>' :: rest)))) =
      some ((tx.getD "").toList,
        serChildren cs ++ ('<' :: '/' :: (t.toList ++ '>' :: rest))) := by
    rw [hX]
    exact parseText_escape (tx.getD "").toList X f (by omega)
  have hpchild : parseChildren f (serChildren cs ++
      ('<' :: '/' :: (t.toList ++ '>' :: rest))) =
      some (canonList cs, '<' :: '/' :: (t.toList ++ '>' :: rest)) :=
    parseChildren_ser cs IH hwcs (t.toList ++ '>' :: rest) f (by omega)
  have hrun2 := takeWhile_run isNameChar t.toList '>' rest hall (by decide)
  have hmkt : String.mk t.toList = t := rfl
  have htext : (if ((tx.getD "").toList).isEmpty then none
      else some (String.mk (tx.getD "").toList)) =
      (match tx with
       | some s => if s = "" then none else some s
       | none => none) := by
    cases tx with
    | none => simp
    | some s =>
        by_cases hs : s = ""
        · subst hs
          simp
        · have hsl : s.toList ≠ [] := by
            intro hc
            apply hs
            cases s with
            | mk d =>
                simp only [String.toList] at hc
                subst hc
                rfl
          have hse : s.toList.isEmpty = false := by
            cases hsk : s.toList with
            | nil => exact absurd hsk hsl
            | cons x xs => rfl
          simp [hs, hse]
          exact hsl
  rw [hstream]
  simp only [parseElem, htake, hdrop, hempty, Bool.false_eq_true, if_false, hattrs,
    hptext, hpchild, canonElem, hrun2.1, hrun2.2, hmkt, htext]
  simp [hrun2.1, hrun2.2, hmkt, htext]
  cases tx <;> rfl

/-- Every member of a well-formed child list is well-formed. -/
theorem wfList_mem {cs : List Elem} (h : wfList cs = true) {c : Elem}
    (hc : c ∈ cs) : wfElem c = true := by
  induction cs with
  | nil => cases hc
  | cons d ds ih =>
      simp only [wfList, Bool.and_eq_true] at h
      rcases List.mem_cons.mp hc with rfl | hc'
      · exact h.1
      · exact ih h.2 hc'

/-- Parsing the serialization of any well-formed element recovers its
canonical form, leaving any suffix intact (strong induction on size). -/
theorem parseElem_ser_aux (n : Nat) : ∀ e, sizeOf e ≤ n → wfElem e = true →
    ∀ rest fuel, (serElem e).length < fuel →
      parseElem fuel (serElem e ++ rest) = some (canonElem e, rest) := by
  induction n with
  | zero =>
      intro e hsz
      exfalso
      obtain ⟨t, a, tx, cs⟩ := e
      simp only [Elem.mk.sizeOf_spec] at hsz
      omega
  | succ n ihn =>
      intro e hsz hwf rest fuel hf
      obtain ⟨t, a, tx, cs⟩ := e
      have hwf' := hwf
      simp only [wfElem, Bool.and_eq_true, List.all_eq_true] at hwf'
      have hvt : validName t = true := hwf'.1.1
      have hva : ∀ p ∈ a, validName p.1 = true := fun p hp => hwf'.1.2 p hp
      have hwcs : wfList cs = true := hwf'.2
      have hter : ∀ c ∈ cs, sizeOf c ≤ n := by
        intro c hc
        have h1 : sizeOf c < sizeOf cs := List.sizeOf_lt_of_mem hc
        simp only [Elem.mk.sizeOf_spec] at hsz
        omega
      have IH : ∀ c ∈ cs, ∀ rest1 fuel1, (serElem c).length < fuel1 →
          parseElem fuel1 (serElem c ++ rest1) = some (canonElem c, rest1) :=
        fun c hc rest1 fuel1 hfu =>
          ihn c (hter c hc) (wfList_mem hwcs hc) rest1 fuel1 hfu
      rcases tx with _ | s
      · rcases cs with _ | ⟨c, cs'⟩
        · -- self-closing form
          obtain ⟨f, rfl⟩ : ∃ f, fuel = f + 1 := ⟨fuel - 1, by omega⟩
          obtain ⟨hne, hall⟩ := validName_parts t hvt
          have hfl : (serElem (Elem.mk t a none [])).length =
              t.toList.length + (serAttrs a).length + 3 := by
            rw [show serElem (Elem.mk t a none []) =
              '<' :: t.toList ++ serAttrs a ++ ['/', '>'] from rfl]
            simp only [List.length_cons, List.length_append, List.length_nil]
            omega
          have hstream : serElem (Elem.mk t a none []) ++ rest =
              '<' :: (t.toList ++ (serAttrs a ++ ('/' :: '>' :: rest))) := by
            rw [show serElem (Elem.mk t a none []) =
              '<' :: t.toList ++ serAttrs a ++ ['/', '>'] from rfl]
            simp [List.append_assoc]
          obtain ⟨y', ys', hZ, hy'⟩ := serAttrs_head_nonname a '/' ('>' :: rest)
            (by decide)
          have hrun := takeWhile_run isNameChar t.toList y' ys' hall hy'
          have htake : (t.toList ++ (serAttrs a ++ ('/' :: '>' :: rest))).takeWhile
              isNameChar = t.toList := by
            rw [hZ]
            exact hrun.1
          have hdrop : (t.toList ++ (serAttrs a ++ ('/' :: '>' :: rest))).dropWhile
              isNameChar = serAttrs a ++ ('/' :: '>' :: rest) := by
            rw [hZ, hrun.2, ← hZ]
          have hempty : t.toList.isEmpty = false := by
            cases hkk : t.toList with
            | nil => exact absurd hkk hne
            | cons x xs => rfl
          have hattrs : parseAttrs f (serAttrs a ++ ('/' :: '>' :: rest)) =
              some (a, '/' :: '>' :: rest) :=
            parseAttrs_ser a hva _ f rfl (by omega)
          have hmkt : String.mk t.toList = t := rfl
          rw [hstream]
          simp only [parseElem, htake, hdrop, hempty, Bool.false_eq_true, if_false,
            hattrs, hmkt]
          simp [canonElem, canonList]
        · exact parseElem_ser_long t a none (c :: cs') (by simp [serElem, List.append_assoc, List.cons_append]) hvt hva hwcs IH rest fuel hf
      · rcases cs with _ | ⟨c, cs'⟩
        · exact parseElem_ser_long t a (some s) [] (by simp [serElem, List.append_assoc, List.cons_append]) hvt hva hwcs IH rest fuel hf
        · exact parseElem_ser_long t a (some s) (c :: cs') (by simp [serElem, List.append_assoc, List.cons_append]) hvt hva hwcs IH rest fuel hf

/-- A canonicalized child list is structurally equal to the original,
given that each member canonicalizes structurally. -/
theorem structEqList_canon_of (cs : List Elem)
    (IH : ∀ c ∈ cs, structEqElem (canonElem c) c = true) :
    structEqList (canonList cs) cs = true := by
  induction cs with
  | nil => rfl
  | cons c cs' ih =>
      have h1 := IH c (by simp)
      have h2 := ih (fun d hd => IH d (by simp [hd]))
      simp [canonList, structEqList, h1, h2]

/-- Canonicalization only identifies empty text with absent text, so the
canonical form is structurally equal to the original. -/
theorem structEq_canon (n : Nat) : ∀ e, sizeOf e ≤ n →
    structEqElem (canonElem e) e = true := by
  induction n with
  | zero =>
      intro e hsz
      exfalso
      obtain ⟨t, a, tx, cs⟩ := e
      simp only [Elem.mk.sizeOf_spec] at hsz
      omega
  | succ n ihn =>
      intro e hsz
      obtain ⟨t, a, tx, cs⟩ := e
      have hter : ∀ c ∈ cs, sizeOf c ≤ n := by
        intro c hc
        have h1 : sizeOf c < sizeOf cs := List.sizeOf_lt_of_mem hc
        simp only [Elem.mk.sizeOf_spec] at hsz
        omega
      have hlist := structEqList_canon_of cs (fun c hc => ihn c (hter c hc))
      rcases tx with _ | s
      · simp [canonElem, structEqElem, hlist]
      · by_cases hs : s = ""
        · subst hs
          simp [canonElem, structEqElem, hlist]
        · simp [canonElem, structEqElem, hlist, hs]

/-! ## Claim theorems for the Document Store round-trip -/

/-- C8: for every well-formed document, the class the system's own
mutation operations produce (valid tag and attribute names; text and
attribute values arbitrary), parsing its serialization succeeds and yields
a document structurally equal to the original (text, attributes, tags and
children all preserved; absent text identified with empty text). -/
theorem parse_serialize_structural (d : Elem) (h : wfElem d = true) :
    structEqOpt (parse (serialize d)) d = true := by
  have hp := parseElem_ser_aux (sizeOf d) d le_rfl h [] ((serElem d).length + 1)
    (by omega)
  rw [List.append_nil] at hp
  have hq : parse (serialize d) = some (canonElem d) := by
    unfold parse serialize
    rw [show (String.mk (serElem d)).toList = serElem d from rfl,
        show (String.mk (serElem d)).length = (serElem d).length from rfl, hp]
  rw [hq]
  exact structEq_canon (sizeOf d) d le_rfl

/-- C8 witness: a concrete well-formed document round-trips. -/
theorem parse_serialize_structural_witness :
    wfElem featDoc1 = true ∧
    structEqOpt (parse (serialize featDoc1)) featDoc1 = true :=
  ⟨by decide, parse_serialize_structural featDoc1 (by decide)⟩

end VmXml
